import Mathlib

/-!
Verification of the chron job supervisor against its specification.

The development shallowly embeds the parts of the TypeScript sources that the
verified properties are about:

* `validateName` — `ChronService.#validateName` (name validation);
* `getLastRuns`, `countMissed`, `scheduleCatchUp` — the missed-run catch-up
  tail of `ChronService.schedule`;
* `executeJobTrace` — the step sequence of `ChronService.#executeJob`;
* `scheduledCallback` — the cron callback registered by `ChronService.schedule`;
* `stepInv` / `doReset` / `runActs` — a small-step interleaving model of one
  `#executeJob` invocation racing against `ChronService.reset`;
* `httpStatus` — the routing and status codes of `ChronServer`;
* `clearMessages` / `clearAllMessages` — `Mailbox` over a list model;
* `parseChronfile` / `load` — the strict chronfile schema and loader;
* `parseIntJs` / `childMailboxEnv` — the entry-point port parsing and the
  child-environment construction in `#executeJob`.

Machine integers do not overflow in any of the modelled code paths
(timestamps and counts are untyped JS numbers used as non-negative integers),
so they are embedded as `Nat`/`Int`.
-/

/-! ## Name validation (`ChronService.#validateName`) -/

/-- A character matched by the regex classes `[a-zA-Z0-9]`. -/
def isAlnum (c : Char) : Bool :=
  ('a' ≤ c && c ≤ 'z') || ('A' ≤ c && c ≤ 'Z') || ('0' ≤ c && c ≤ '9')

mutual

/-- Matcher for the regex `^[a-zA-Z0-9]+(-[a-zA-Z0-9]+)*$`: a segment of one
or more alphanumeric characters, then `kebabRest`.  Because the `-` separator
is disjoint from the `[a-zA-Z0-9]` class, the greedy left-to-right reading of
the regex is exact and needs no backtracking. -/
def kebabSeg : List Char → Bool
  | [] => false
  | c :: rest => isAlnum c && kebabRest rest

/-- Continuation of `kebabSeg` after at least one alphanumeric character of
the current segment has been consumed: the end of input, more alphanumerics,
or a `-` starting a fresh segment. -/
def kebabRest : List Char → Bool
  | [] => true
  | c :: rest => if c = '-' then kebabSeg rest else isAlnum c && kebabRest rest

end

/-- The two exceptions `#validateName` can throw. -/
inductive NameError
  | invalidName
  | duplicateName
deriving DecidableEq, Repr

/-- `ChronService.#validateName`: reject empty or non-kebab-case names, then
reject names already present in the job registry (`this.#jobs`).  `none`
means the name was accepted. -/
def validateName (registry : List String) (name : String) : Option NameError :=
  if name.length = 0 || !kebabSeg name.data then some NameError.invalidName
  else if registry.contains name then some NameError.duplicateName
  else none

/-! ## Run-status store and missed-run catch-up (`ChronService.schedule`) -/

/-- A record of the `jobStatus.json` database (`RunStatusEntry` in the
source).  `statusCode` is absent while the command is running. -/
structure RunStatusEntry where
  id : String
  name : String
  timestamp : Nat
  statusCode : Option Int
deriving DecidableEq, Repr

/-- One step of the stable descending-by-timestamp sort performed by
`getLastRuns` (`runs.sort((r1, r2) => r2.timestamp - r1.timestamp)`); a JS
`Array.prototype.sort` is stable, which this insertion respects by placing an
earlier element before later elements with an equal timestamp. -/
def insertRunDesc (r : RunStatusEntry) : List RunStatusEntry → List RunStatusEntry
  | [] => [r]
  | x :: xs => if x.timestamp ≤ r.timestamp then r :: x :: xs else x :: insertRunDesc r xs

/-- Stable sort of run-status entries, most recent timestamp first. -/
def sortRunsDesc : List RunStatusEntry → List RunStatusEntry
  | [] => []
  | x :: xs => insertRunDesc x (sortRunsDesc xs)

/-- `ChronService.getLastRuns`: all entries of the status database for the
given job, sorted by timestamp descending. -/
def getLastRuns (db : List RunStatusEntry) (job : String) : List RunStatusEntry :=
  sortRunsDesc (db.filter (fun r => r.name == job))

/-- The `k`-th date produced by `cronSchedule.getNextDatesIterator(t)`,
with `occ nextAfter t 0 = t` the starting instant itself (not yielded by the
iterator); `nextAfter s` is the next cron occurrence strictly after `s`. -/
def occ (nextAfter : Nat → Nat) (t : Nat) : Nat → Nat
  | 0 => t
  | k + 1 => nextAfter (occ nextAfter t k)

/-- The `for (const nextRun of runs)` counting loop of `schedule`: walk the
occurrences after `t` and count those `≤ now`, stopping at the first one
beyond `now`.  `fuel` bounds the walk; `now + 1 - t` is always enough because
occurrences strictly increase. -/
def countMissed (nextAfter : Nat → Nat) (now : Nat) : Nat → Nat → Nat
  | _, 0 => 0
  | t, fuel + 1 =>
    if nextAfter t ≤ now then countMissed nextAfter now (nextAfter t) fuel + 1 else 0

/-- The `makeUpMissedRuns` option: a non-negative count or the sentinel
`"all"`. -/
inductive MakeUpMissedRuns
  | all
  | upTo (n : Nat)
deriving DecidableEq, Repr

/-- `missedRuns` as computed by `schedule`: zero when the job has no recorded
run, otherwise the number of occurrences after the last run time that are not
after `now`. -/
def missedRunCount (nextAfter : Nat → Nat) (now : Nat) (lastRunTime : Option Nat) : Nat :=
  match lastRunTime with
  | none => 0
  | some t => countMissed nextAfter now t (now + 1 - t)

/-- `makeUpRuns` as computed by `schedule`: `missedRuns` when the option is
`"all"`, else `Math.min(missedRuns, makeUpMissedRuns)`. -/
def makeUpRunCount (mu : MakeUpMissedRuns) (missed : Nat) : Nat :=
  match mu with
  | .all => missed
  | .upTo k => min missed k

/-- Observable outcome of the catch-up tail of `schedule`: the stderr line it
prints (if any) and how many times it synchronously awaits `#executeJob`
before returning. -/
structure CatchUpResult where
  stderrLine : Option String
  execRuns : Nat
deriving DecidableEq, Repr

/-- The missed-run catch-up tail of `ChronService.schedule` (source lines
170–201): read the most recent run timestamp via `getLastRuns(name)[0]`,
count missed occurrences, cap by the `makeUpMissedRuns` option, log when the
cap is positive, and run the execution path that many times. -/
def scheduleCatchUp (nextAfter : Nat → Nat) (db : List RunStatusEntry) (name : String)
    (mu : MakeUpMissedRuns) (now : Nat) : CatchUpResult :=
  let lastRunTime := ((getLastRuns db name).head?).map (fun r => r.timestamp)
  let missed := missedRunCount nextAfter now lastRunTime
  let makeUp := makeUpRunCount mu missed
  { stderrLine :=
      if makeUp > 0 then some s!"Making up {makeUp} of {missed} missed runs for {name}\n"
      else none
    execRuns := makeUp }

/-! ## One invocation of `ChronService.#executeJob` as an event trace -/

/-- The externally visible steps of `#executeJob`, in source order. -/
inductive ExecEv
  | logRunning
  | insertStatus (name : String) (timestamp : Nat)
  | ensureLogDir
  | openLog
  | writeHeader
  | spawn (command : String)
  | awaitExit
  | updateStatus (code : Nat)
  | mailboxAdd (source message : String)
  | writeFooter (code : Nat)
  | closeLog
deriving DecidableEq, Repr

/-- The step sequence of a single `#executeJob` invocation whose child exits
with `code`: nothing when the abort signal is already tripped at entry,
otherwise the source-ordered steps, with the `@errors` mailbox message added
exactly when `status.success` is false (`code ≠ 0`). -/
def executeJobTrace (aborted : Bool) (name command : String) (code timestamp : Nat) :
    List ExecEv :=
  if aborted then []
  else
    [ExecEv.logRunning, ExecEv.insertStatus name timestamp, ExecEv.ensureLogDir,
     ExecEv.openLog, ExecEv.writeHeader, ExecEv.spawn command, ExecEv.awaitExit,
     ExecEv.updateStatus code] ++
    (if code = 0 then []
     else [ExecEv.mailboxAdd "@errors" s!"{name} failed with status code {code}"]) ++
    [ExecEv.writeFooter code, ExecEv.closeLog]

/-- Steps named by the ordering property: run-status insert, log open (with
header), spawn, exit wait, status update, error message, footer-and-close. -/
def isClaimStep : ExecEv → Bool
  | .insertStatus _ _ => true
  | .openLog => true
  | .spawn _ => true
  | .awaitExit => true
  | .updateStatus _ => true
  | .mailboxAdd _ _ => true
  | .writeFooter _ => true
  | .closeLog => true
  | _ => false

/-- Recognises an addition to the `@errors` mailbox. -/
def isErrorsMailboxAdd : ExecEv → Bool
  | .mailboxAdd src _ => src == "@errors"
  | _ => false

/-! ## The cron callback registered by `ChronService.schedule` -/

/-- What the scheduler callback does on a firing: skip with a stderr line, or
start the execution path without awaiting it. -/
inductive CallbackAction
  | skip (stderrLine : String)
  | executeNoAwait
deriving DecidableEq, Repr

/-- The callback passed to `scheduler.registerTask` in `schedule`: when the
job has a live process and concurrent runs are not allowed, log and return;
otherwise call `#executeJob` without `await`. -/
def scheduledCallback (processRunning allowConcurrentRuns : Bool) (name : String) :
    CallbackAction :=
  if processRunning && !allowConcurrentRuns then
    CallbackAction.skip s!"Skipping {name} because it is still running\n"
  else CallbackAction.executeNoAwait

/-! ## Reset versus a running invocation (`ChronService.reset` / `#executeJob`)

A single `#executeJob` invocation is modelled as a program counter over its
suspension points; `reset` may run atomically at any of them (the JS runtime
is single-threaded and `reset` contains no `await`).  Program counter values,
against the source of `#executeJob`:

* 0 — the `job.abortSignal.aborted` entry check (the only abort check);
* 1 — `await logStderr(...)`;
* 2 — `await this.#statusDb.insertOne(...)`;
* 3 — `await ensureDir(this.#logDir)`;
* 4 — `await Deno.open(...)`;
* 5 — `await writeAllString(logFile, header)`;
* 6 — `Deno.run(...)`, `job.process = process`, `addEventListener("abort")`
      (one synchronous block);
* 7 — `await process.status()` (the abort listener is active only here;
      stepping past it is the exit, which removes the listener);
* 8 — `await this.#statusDb.updateOne(...)`;
* 9 — mailbox post, footer write, close;
* 10 — done.
-/

/-- Events observable in the reset-versus-invocation model. -/
inductive SupEv
  | resetDone
  | spawnChild
  | sigtermChild
  | invAborted
deriving DecidableEq, Repr

/-- State of one invocation interleaved with resets. -/
structure MachineState where
  pc : Nat
  aborted : Bool
  listenerActive : Bool
  events : List SupEv
deriving DecidableEq, Repr

/-- Advance the invocation by one step.  The abort token is consulted only at
`pc = 0`, exactly as in `#executeJob`. -/
def stepInv (s : MachineState) : MachineState :=
  if s.pc = 0 then
    if s.aborted then { s with pc := 10, events := s.events ++ [SupEv.invAborted] }
    else { s with pc := 1 }
  else if s.pc = 6 then
    { s with pc := 7, listenerActive := true, events := s.events ++ [SupEv.spawnChild] }
  else if s.pc = 7 then { s with pc := 8, listenerActive := false }
  else if s.pc < 10 then { s with pc := s.pc + 1 }
  else s

/-- `ChronService.reset`, seen by one invocation.  The invocation holds the
generation signal captured at its registration.  The first `reset()` after
that registration aborts this controller, and the `abort` event fires once,
at that trip, running exactly the listeners registered at that moment (which
SIGTERM the child): hence `sigtermChild` iff the listener is active and the
token is not yet tripped.  Any later `reset()` aborts a newer generation's
controller, so it never re-fires this signal — a listener added after the
trip (by a post-reset spawn) never fires at all. -/
def doReset (s : MachineState) : MachineState :=
  if s.aborted then { s with events := s.events ++ [SupEv.resetDone] }
  else
    { s with
      aborted := true
      events := s.events ++ [SupEv.resetDone] ++
        (if s.listenerActive then [SupEv.sigtermChild] else []) }

/-- An interleaving: invocation micro-steps and reset calls, in order. -/
inductive SupAct
  | step
  | reset
deriving DecidableEq, Repr

/-- Run an interleaving from a state. -/
def runActs : List SupAct → MachineState → MachineState
  | [], s => s
  | SupAct.step :: rest, s => runActs rest (stepInv s)
  | SupAct.reset :: rest, s => runActs rest (doReset s)

/-- The invocation before it has run any step, under a not-yet-tripped
generation token. -/
def initMachine : MachineState :=
  { pc := 0, aborted := false, listenerActive := false, events := [] }

/-! ## Control plane (`ChronServer`) -/

/-- HTTP methods used by the routes (plus `put` as a representative
unsupported method). -/
inductive Method
  | get
  | post
  | delete
  | put
deriving DecidableEq, Repr

/-- Outcome of the filesystem operation behind the `logs` routes
(`serveFile` / `Deno.remove`). -/
inductive FsOutcome
  | ok
  | notFound
  | otherError (message : String)
deriving DecidableEq, Repr

/-- `handleFsError` composed with the success path, status only:
success 200, `Deno.errors.NotFound` 404, anything else 500. -/
def fsStatus : FsOutcome → Nat
  | .ok => 200
  | .notFound => 404
  | .otherError _ => 500

/-- `ChronServer.#jobHandler`, status code only.  `jobs` is the set of
registered job names (`this.#chron.getJobs()`). -/
def jobHandler (jobs : List String) (m : Method) (jobName command : String)
    (fs : FsOutcome) : Nat :=
  if !(jobs.contains jobName) then 404
  else if command == "status" then
    if m = Method.get then 200 else 405
  else if command == "logs" then
    if m = Method.get then fsStatus fs
    else if m = Method.delete then fsStatus fs
    else 405
  else if command == "mailbox" then
    if m = Method.get || m = Method.post || m = Method.delete then 200 else 405
  else if command == "terminate" then
    if m = Method.post then 200 else 405
  else 404

/-- `ChronServer.#mailboxHandler`, status code only.  Note the `count` arm
answers every method. -/
def mailboxHandler (m : Method) (command : String) : Nat :=
  if command == "messages" then
    if m = Method.get then 200
    else if m = Method.delete then 200
    else 405
  else if command == "count" then 200
  else 405

/-- `ChronServer.#httpHandler`, status code only: the `GET /` job list, the
`/job/:job/:command` pattern, the `/mailbox/:command` pattern, else 400.
`path` is the list of non-empty pathname segments. -/
def httpStatus (jobs : List String) (fs : FsOutcome) (m : Method) (path : List String) :
    Nat :=
  if m = Method.get ∧ path = [] then 200
  else
    match path with
    | [p1, j, c] => if p1 = "job" then jobHandler jobs m j c fs else 400
    | [p1, c] => if p1 = "mailbox" then mailboxHandler m c else 400
    | _ => 400

/-! ## Mailbox (`Mailbox` over the AloeDB list of documents) -/

/-- A mailbox message (`Message` in the source). -/
structure Message where
  source : String
  timestamp : String
  message : String
deriving DecidableEq, Repr

/-- `Mailbox.getMessages`: `findMany({ source })`. -/
def getMessages (db : List Message) (source : String) : List Message :=
  db.filter (fun m => m.source == source)

/-- `Mailbox.clearMessages`: `deleteMany({ source })` removes the matching
documents from the stored list and returns them; the pair is
`(returned, remaining database)`. -/
def clearMessages (db : List Message) (source : String) : List Message × List Message :=
  (db.filter (fun m => m.source == source), db.filter (fun m => !(m.source == source)))

/-- `Mailbox.clearAllMessages`: `deleteMany({})` removes every document. -/
def clearAllMessages (db : List Message) : List Message × List Message :=
  (db, [])

/-! ## Chronfile loader (`chronfile.ts`, strict schema) -/

/-- A primitive TOML value as it reaches the zod schema. -/
inductive TomlVal
  | str (s : String)
  | int (n : Int)
  | bool (b : Bool)
deriving DecidableEq, Repr

/-- The fields of one job table, as parsed TOML key/value pairs. -/
abbrev RawEntry := List (String × TomlVal)

/-- The parsed TOML document: the `[startup.*]` and `[schedule.*]` tables in
document order (the zod `.default({})` for a missing table yields `[]`). -/
structure RawDoc where
  startup : List (String × RawEntry)
  schedule : List (String × RawEntry)
deriving DecidableEq, Repr

/-- Field lookup within one job table. -/
def lookupField (e : RawEntry) (key : String) : Option TomlVal :=
  (e.find? (fun kv => kv.1 == key)).map (fun kv => kv.2)

/-- A validated `[startup.<name>]` entry. -/
structure StartupJobCfg where
  command : String
  keepAlive : Bool
deriving DecidableEq, Repr

/-- A validated `[schedule.<name>]` entry. -/
structure ScheduleJobCfg where
  schedule : String
  command : String
  allowConcurrentRuns : Bool
  makeUpMissedRuns : MakeUpMissedRuns
deriving DecidableEq, Repr

/-- The zod schema for a startup entry:
`z.object({ command: z.string(), keepAlive: z.boolean().default(true) }).strict()`. -/
def parseStartupEntry (e : RawEntry) : Except String StartupJobCfg :=
  if !(e.all (fun kv => kv.1 == "command" || kv.1 == "keepAlive")) then
    Except.error "unrecognized keys"
  else
    match lookupField e "command" with
    | some (TomlVal.str cmd) =>
      match lookupField e "keepAlive" with
      | none => Except.ok { command := cmd, keepAlive := true }
      | some (TomlVal.bool b) => Except.ok { command := cmd, keepAlive := b }
      | some _ => Except.error "expected boolean for keepAlive"
    | _ => Except.error "expected string for command"

/-- Continuation of `parseScheduleEntry` for the `makeUpMissedRuns` field. -/
def parseScheduleTail (e : RawEntry) (sched cmd : String) (allow : Bool) :
    Except String ScheduleJobCfg :=
  match lookupField e "makeUpMissedRuns" with
  | none =>
    Except.ok { schedule := sched, command := cmd, allowConcurrentRuns := allow,
                makeUpMissedRuns := MakeUpMissedRuns.upTo 0 }
  | some (TomlVal.int n) =>
    if 0 ≤ n then
      Except.ok { schedule := sched, command := cmd, allowConcurrentRuns := allow,
                  makeUpMissedRuns := MakeUpMissedRuns.upTo n.toNat }
    else Except.error "expected a non-negative number"
  | some (TomlVal.str s) =>
    if s == "all" then
      Except.ok { schedule := sched, command := cmd, allowConcurrentRuns := allow,
                  makeUpMissedRuns := MakeUpMissedRuns.all }
    else Except.error "expected the literal all"
  | some _ => Except.error "expected a number or the literal all"

/-- The zod schema for a schedule entry, strict, with
`allowConcurrentRuns` defaulting to `false` and `makeUpMissedRuns` a
non-negative number or the literal `"all"` defaulting to `0`. -/
def parseScheduleEntry (e : RawEntry) : Except String ScheduleJobCfg :=
  if !(e.all (fun kv =>
      kv.1 == "schedule" || kv.1 == "command" || kv.1 == "allowConcurrentRuns" ||
      kv.1 == "makeUpMissedRuns")) then
    Except.error "unrecognized keys"
  else
    match lookupField e "schedule", lookupField e "command" with
    | some (TomlVal.str sched), some (TomlVal.str cmd) =>
      match lookupField e "allowConcurrentRuns" with
      | none => parseScheduleTail e sched cmd false
      | some (TomlVal.bool b) => parseScheduleTail e sched cmd b
      | some _ => Except.error "expected boolean for allowConcurrentRuns"
    | _, _ => Except.error "expected strings for schedule and command"

/-- Run an entry schema over a table of named entries, failing on the first
invalid entry (as `schema.parse` fails on any invalid field). -/
def parseEntries {α : Type} (f : RawEntry → Except String α) :
    List (String × RawEntry) → Except String (List (String × α))
  | [] => Except.ok []
  | (name, e) :: rest => do
    let v ← f e
    let vs ← parseEntries f rest
    return (name, v) :: vs

/-- The whole validated chronfile. -/
structure Chronfile where
  startup : List (String × StartupJobCfg)
  schedule : List (String × ScheduleJobCfg)
deriving DecidableEq, Repr

/-- `schema.parse` over the raw document. -/
def parseChronfile (raw : RawDoc) : Except String Chronfile := do
  let su ← parseEntries parseStartupEntry raw.startup
  let sc ← parseEntries parseScheduleEntry raw.schedule
  return { startup := su, schedule := sc }

/-- The operations `load` performs, in order.  The `vres` of a call records
the outcome of `#validateName` inside the (un-awaited) `startup`/`schedule`
call. -/
inductive LoadEv
  | resetCall
  | readParse (ok : Bool)
  | startupCall (name command : String) (keepAlive : Bool) (vres : Option NameError)
  | scheduleCall (name schedule command : String) (allow : Bool)
      (mu : MakeUpMissedRuns) (vres : Option NameError)
deriving DecidableEq, Repr

/-- Apply the `startup` calls of `load` in document order, threading the job
registry: a name that passes `#validateName` is added to `this.#jobs`
synchronously before the next call. -/
def applyStartups (reg : List String) :
    List (String × StartupJobCfg) → List String × List LoadEv
  | [] => (reg, [])
  | (name, cfg) :: rest =>
    let vres := validateName reg name
    let reg2 := if vres.isNone then reg ++ [name] else reg
    let out := applyStartups reg2 rest
    (out.1, LoadEv.startupCall name cfg.command cfg.keepAlive vres :: out.2)

/-- Apply the `schedule` calls of `load` in document order, threading the job
registry as for `applyStartups`. -/
def applySchedules (reg : List String) :
    List (String × ScheduleJobCfg) → List String × List LoadEv
  | [] => (reg, [])
  | (name, cfg) :: rest =>
    let vres := validateName reg name
    let reg2 := if vres.isNone then reg ++ [name] else reg
    let out := applySchedules reg2 rest
    (out.1,
     LoadEv.scheduleCall name cfg.schedule cfg.command cfg.allowConcurrentRuns
       cfg.makeUpMissedRuns vres :: out.2)

/-- `load(chron, path)` of `chronfile.ts` (strict version): call
`chron.reset()` first, then read and `schema.parse` the file (`doc` is the
combined read/parse outcome), then issue the `startup` calls and then the
`schedule` calls, none of them awaited.  The returned `Except` is what the
caller of `load` observes; the event list is the operation order. -/
def load (doc : Except String RawDoc) : Except String Unit × List LoadEv :=
  match doc with
  | Except.error e => (Except.error e, [LoadEv.resetCall, LoadEv.readParse false])
  | Except.ok raw =>
    match parseChronfile raw with
    | Except.error e => (Except.error e, [LoadEv.resetCall, LoadEv.readParse false])
    | Except.ok cfg =>
      let su := applyStartups [] cfg.startup
      let sc := applySchedules su.1 cfg.schedule
      (Except.ok (), [LoadEv.resetCall, LoadEv.readParse true] ++ su.2 ++ sc.2)

/-- Projection of a trace to its `startup` calls, dropping the validation
outcome. -/
def startupCalls (evs : List LoadEv) : List (String × String × Bool) :=
  evs.filterMap (fun ev =>
    match ev with
    | LoadEv.startupCall n c k _ => some (n, c, k)
    | _ => none)

/-- Projection of a trace to its `schedule` calls, dropping the validation
outcome. -/
def scheduleCalls (evs : List LoadEv) :
    List (String × String × String × Bool × MakeUpMissedRuns) :=
  evs.filterMap (fun ev =>
    match ev with
    | LoadEv.scheduleCall n s c a mu _ => some (n, s, c, a, mu)
    | _ => none)

/-- Recognises a `startup` call event. -/
def isStartupCallEv : LoadEv → Bool
  | LoadEv.startupCall _ _ _ _ => true
  | _ => false

/-- Recognises a `schedule` call event. -/
def isScheduleCallEv : LoadEv → Bool
  | LoadEv.scheduleCall _ _ _ _ _ _ => true
  | _ => false

/-! ## Entry-point port parsing and the child environment -/

/-- Digit-prefix parsing of `parseIntJs`: `none` when no leading digit. -/
def parseIntDigits (cs : List Char) : Option Nat :=
  let ds := cs.takeWhile (fun c => '0' ≤ c && c ≤ '9')
  if ds.isEmpty then none
  else some (ds.foldl (fun acc c => acc * 10 + (c.toNat - '0'.toNat)) 0)

/-- Sign handling of `parseIntJs`. -/
def parseIntSigned : List Char → Option Int
  | '-' :: rest => (parseIntDigits rest).map (fun n => -(n : Int))
  | '+' :: rest => (parseIntDigits rest).map (fun n => (n : Int))
  | cs => (parseIntDigits cs).map (fun n => (n : Int))

/-- JS `parseInt(s, 10)`: skip leading whitespace, take an optional sign and
then the maximal digit prefix; `none` models `NaN`. -/
def parseIntJs (s : String) : Option Int :=
  parseIntSigned (s.data.dropWhile (fun c => c = ' ' || c = '\t' || c = '\n'))

/-- The child-environment construction in `#executeJob`:
`const env = this.#port ? { CHRON_MAILBOX_URL: ... } : undefined;` — the
variable is present exactly when the configured port is truthy, i.e.
non-zero. -/
def childMailboxEnv (port : Int) (name : String) : Option String :=
  if port ≠ 0 then some s!"http://0.0.0.0:{port}/mailbox/{name}" else none

/-! ## Theorems -/

/-- C2: name validation fails with `InvalidName` exactly when the name is
empty or violates the kebab-case regex `^[a-zA-Z0-9]+(-[a-zA-Z0-9]+)*$`, and
with `DuplicateName` exactly when the registry already contains the name
(every registered name satisfies the regex, which the hypothesis records);
acceptance is exactly the remaining case. -/
theorem validateName_spec (registry : List String) (name : String)
    (hreg : ∀ n ∈ registry, kebabSeg n.data = true) :
    (validateName registry name = some NameError.invalidName ↔
      (name.length = 0 ∨ kebabSeg name.data = false)) ∧
    (validateName registry name = some NameError.duplicateName ↔ name ∈ registry) ∧
    (validateName registry name = none ↔
      (name.length ≠ 0 ∧ kebabSeg name.data = true ∧ name ∉ registry)) := by
  have hmemvalid : name ∈ registry → kebabSeg name.data = true := fun hm => hreg name hm
  by_cases hkeb : kebabSeg name.data = true
  · have hlen : name.length ≠ 0 := by
      intro h0
      have hdata : name.data = [] := List.length_eq_zero.mp h0
      rw [hdata] at hkeb
      simp [kebabSeg] at hkeb
    by_cases hmem : name ∈ registry
    · have hc : registry.contains name = true := by simpa using hmem
      simp [validateName, hlen, hkeb, hc, hmem]
    · have hc : registry.contains name = false := by simpa using hmem
      simp [validateName, hlen, hkeb, hc, hmem]
  · have hmem : name ∉ registry := fun hm => hkeb (hmemvalid hm)
    have hkeb2 : kebabSeg name.data = false := by simpa using hkeb
    simp [validateName, hkeb2, hmem]

/-- C2 witness: the concrete names listed by the specification, checked
against a registry holding `job-1`. -/
theorem validateName_spec_witness :
    validateName ["job-1"] "" = some NameError.invalidName ∧
    validateName ["job-1"] "Ab_c" = some NameError.invalidName ∧
    validateName ["job-1"] "a--b" = some NameError.invalidName ∧
    validateName ["job-1"] "-a" = some NameError.invalidName ∧
    validateName ["job-1"] "a-" = some NameError.invalidName ∧
    validateName ["job-1"] "a" = none ∧
    validateName ["job-1"] "Do-It-Now" = none ∧
    validateName ["job-1"] "job-1" = some NameError.duplicateName :=
  ⟨(validateName_spec ["job-1"] "" (by decide)).1.mpr (Or.inl (by decide)),
   (validateName_spec ["job-1"] "Ab_c" (by decide)).1.mpr (Or.inr (by decide)),
   (validateName_spec ["job-1"] "a--b" (by decide)).1.mpr (Or.inr (by decide)),
   (validateName_spec ["job-1"] "-a" (by decide)).1.mpr (Or.inr (by decide)),
   (validateName_spec ["job-1"] "a-" (by decide)).1.mpr (Or.inr (by decide)),
   (validateName_spec ["job-1"] "a" (by decide)).2.2.mpr
     ⟨by decide, by decide, by decide⟩,
   (validateName_spec ["job-1"] "Do-It-Now" (by decide)).2.2.mpr
     ⟨by decide, by decide, by decide⟩,
   (validateName_spec ["job-1"] "job-1" (by decide)).2.1.mpr (by decide)⟩

/-- C4: within one non-aborted invocation, restricting the step trace of
`#executeJob` to the steps named by the claim yields exactly the sequence
"insert run-status entry, open log (with header), spawn, await exit, update
status, error message iff the exit code is non-zero, footer, close", each
once and in this order. -/
theorem executeJob_step_order (name command : String) (code timestamp : Nat) :
    (executeJobTrace false name command code timestamp).filter isClaimStep =
      [ExecEv.insertStatus name timestamp, ExecEv.openLog, ExecEv.spawn command,
       ExecEv.awaitExit, ExecEv.updateStatus code] ++
      (if code = 0 then []
       else [ExecEv.mailboxAdd "@errors" s!"{name} failed with status code {code}"]) ++
      [ExecEv.writeFooter code, ExecEv.closeLog] := by
  by_cases h : code = 0 <;>
    simp [executeJobTrace, isClaimStep, h]

/-- C5: a completed invocation adds exactly one `@errors` message, reading
"<name> failed with status code <code>", when the exit code is non-zero, and
none when it is zero. -/
theorem executeJob_errors_mailbox (name command : String) (code timestamp : Nat) :
    (executeJobTrace false name command code timestamp).filter isErrorsMailboxAdd =
      (if code = 0 then []
       else [ExecEv.mailboxAdd "@errors" s!"{name} failed with status code {code}"]) := by
  by_cases h : code = 0 <;>
    simp [executeJobTrace, isErrorsMailboxAdd, h]

/-- C6: the cron callback skips with the stderr line
"Skipping <name> because it is still running" exactly when the job has a live
process and concurrent runs are disallowed, and otherwise starts the
execution path without awaiting it. -/
theorem scheduledCallback_spec (processRunning allow : Bool) (name : String) :
    (scheduledCallback processRunning allow name =
        CallbackAction.skip s!"Skipping {name} because it is still running\n" ↔
      (processRunning = true ∧ allow = false)) ∧
    (scheduledCallback processRunning allow name = CallbackAction.executeNoAwait ↔
      ¬(processRunning = true ∧ allow = false)) := by
  cases processRunning <;> cases allow <;> simp [scheduledCallback]

/-- C10: the CLI accepts the `PORT` value `"0"` (it parses to `0`, not
`NaN`), and a child spawned under a supervisor configured with any port gets
`CHRON_MAILBOX_URL` exactly when the port is non-zero — in particular never
with port `0`. -/
theorem childMailboxEnv_port_zero :
    parseIntJs "0" = some 0 ∧
    (∀ name : String, childMailboxEnv 0 name = none) ∧
    (∀ p : Int, ∀ name : String, childMailboxEnv p name = none ↔ p = 0) := by
  refine ⟨by decide, fun name => by simp [childMailboxEnv], fun p name => ?_⟩
  by_cases hp : p = 0 <;> simp [childMailboxEnv, hp]

/-- C9: clearing a mailbox by source returns exactly the messages with that
source (the same list a query by that source returns), leaves every message
with a different source unchanged (queries by any other source are
unaffected, and together the returned and remaining messages are a
permutation of the database), and clearing all removes all messages. -/
theorem mailbox_clear_spec (db : List Message) (src : String) :
    (clearMessages db src).1 = getMessages db src ∧
    (∀ m ∈ (clearMessages db src).1, m.source = src) ∧
    (∀ m ∈ (clearMessages db src).2, m.source ≠ src) ∧
    ((clearMessages db src).1 ++ (clearMessages db src).2).Perm db ∧
    (∀ src2, src2 ≠ src →
      getMessages (clearMessages db src).2 src2 = getMessages db src2) ∧
    getMessages (clearMessages db src).2 src = [] ∧
    (clearAllMessages db).1 = db ∧
    (clearAllMessages db).2 = [] := by
  refine ⟨rfl, ?_, ?_, ?_, ?_, ?_, rfl, rfl⟩
  · intro m hm
    have := List.of_mem_filter hm
    simpa using this
  · intro m hm
    have := List.of_mem_filter hm
    simpa using this
  · exact List.filter_append_perm _ db
  · intro src2 hne
    unfold clearMessages getMessages
    rw [List.filter_filter]
    apply List.filter_congr
    intro m _
    by_cases hm : m.source = src2
    · simp [hm, hne]
    · simp [hm]
  · unfold clearMessages getMessages
    rw [List.filter_filter]
    apply List.filter_eq_nil_iff.mpr
    intro m _
    simp

/-- C9 witness: a two-message mailbox cleared by source `"a"` leaves the
query for source `"b"` unchanged, and the returned messages carry the cleared
source. -/
theorem mailbox_clear_spec_witness :
    getMessages
        (clearMessages [Message.mk "a" "t1" "m1", Message.mk "b" "t2" "m2"] "a").2 "b" =
      getMessages [Message.mk "a" "t1" "m1", Message.mk "b" "t2" "m2"] "b" ∧
    (Message.mk "a" "t1" "m1").source = "a" :=
  ⟨(mailbox_clear_spec [Message.mk "a" "t1" "m1", Message.mk "b" "t2" "m2"]
      "a").2.2.2.2.1 "b" (by decide),
   (mailbox_clear_spec [Message.mk "a" "t1" "m1", Message.mk "b" "t2" "m2"]
      "a").2.1 (Message.mk "a" "t1" "m1") (by decide)⟩

/-- The base point is moved one occurrence forward by unfolding one iterator
step. -/
theorem occ_shift (nextAfter : Nat → Nat) (t k : Nat) :
    occ nextAfter t (k + 1) = occ nextAfter (nextAfter t) k := by
  induction k with
  | zero => rfl
  | succ k ih => rw [occ, ih, occ]

/-- Every iterated occurrence is strictly after the starting instant. -/
theorem occ_gt (nextAfter : Nat → Nat) (hmono : ∀ s, s < nextAfter s) (t : Nat) :
    ∀ k, 1 ≤ k → t < occ nextAfter t k := by
  intro k hk
  induction k with
  | zero => omega
  | succ k ih =>
    rcases Nat.eq_zero_or_pos k with h0 | hpos
    · subst h0; exact hmono t
    · exact lt_trans (ih hpos) (hmono _)

/-- The counting loop of `schedule` computes exactly the number of cron
occurrences in `(t, now]`: the first `countMissed` occurrences are `≤ now`
and the next one is after `now`, provided occurrences strictly increase and
the fuel covers the interval. -/
theorem countMissed_char (nextAfter : Nat → Nat) (hmono : ∀ s, s < nextAfter s)
    (now : Nat) :
    ∀ fuel t, now + 1 ≤ t + fuel →
      (∀ k, 1 ≤ k → k ≤ countMissed nextAfter now t fuel → occ nextAfter t k ≤ now) ∧
      now < occ nextAfter t (countMissed nextAfter now t fuel + 1) := by
  intro fuel
  induction fuel with
  | zero =>
    intro t hfuel
    constructor
    · intro k h1 h2
      simp [countMissed] at h2
      omega
    · have := hmono t
      simp [countMissed, occ]
      omega
  | succ fuel ih =>
    intro t hfuel
    by_cases hle : nextAfter t ≤ now
    · have hrec := ih (nextAfter t) (by have := hmono t; omega)
      have hcm : countMissed nextAfter now t (fuel + 1) =
          countMissed nextAfter now (nextAfter t) fuel + 1 := by
        simp [countMissed, hle]
      constructor
      · intro k h1 h2
        rw [hcm] at h2
        rcases Nat.eq_or_lt_of_le h1 with h | h
        · rw [← h]; simpa [occ, occ_shift] using hle
        · obtain ⟨j, rfl⟩ : ∃ j, k = j + 1 := ⟨k - 1, by omega⟩
          rw [occ_shift]
          exact hrec.1 j (by omega) (by omega)
      · rw [hcm, occ_shift]
        exact hrec.2
    · have hcm : countMissed nextAfter now t (fuel + 1) = 0 := by
        simp [countMissed, hle]
      constructor
      · intro k h1 h2; omega
      · rw [hcm]
        simpa [occ] using hle

/-- C1: when the run-status store has entries for the job with most recent
timestamp `t`, the missed-run count `M` is exactly the number of cron
occurrences strictly after `t` and not after `now` (the first `M` iterated
occurrences lie in `(t, now]` and the next one is later), the catch-up cap is
`C = M` for `"all"` and `min M limit` otherwise, the stderr line
"Making up C of M missed runs for <name>" is printed exactly when `C > 0`,
and the execution path is awaited exactly `C` times before `schedule`
returns; when the store has no entry for the job, no catch-up run is
performed. -/
theorem scheduleCatchUp_missed_runs (nextAfter : Nat → Nat)
    (db : List RunStatusEntry) (name : String) (mu : MakeUpMissedRuns)
    (now t M C : Nat)
    (hmono : ∀ s, s < nextAfter s)
    (hlast : ((getLastRuns db name).head?).map (fun r => r.timestamp) = some t)
    (hM : M = missedRunCount nextAfter now (some t))
    (hC : C = makeUpRunCount mu M) :
    (∀ k, 1 ≤ k → k ≤ M → t < occ nextAfter t k ∧ occ nextAfter t k ≤ now) ∧
    now < occ nextAfter t (M + 1) ∧
    (scheduleCatchUp nextAfter db name mu now).execRuns = C ∧
    ((scheduleCatchUp nextAfter db name mu now).stderrLine =
      if C > 0 then some s!"Making up {C} of {M} missed runs for {name}\n" else none) ∧
    (∀ db2 : List RunStatusEntry, (getLastRuns db2 name).head? = none →
      (scheduleCatchUp nextAfter db2 name mu now).execRuns = 0 ∧
      (scheduleCatchUp nextAfter db2 name mu now).stderrLine = none) := by
  have hchar := countMissed_char nextAfter hmono now (now + 1 - t) t (by omega)
  have hMeq : M = countMissed nextAfter now t (now + 1 - t) := by
    simpa [missedRunCount] using hM
  have hout : scheduleCatchUp nextAfter db name mu now =
      { stderrLine :=
          if C > 0 then some s!"Making up {C} of {M} missed runs for {name}\n" else none
        execRuns := C } := by
    rw [scheduleCatchUp, hlast, ← hM, ← hC]
  refine ⟨?_, ?_, ?_, ?_, ?_⟩
  · intro k h1 h2
    exact ⟨occ_gt nextAfter hmono t k h1, hchar.1 k h1 (by omega)⟩
  · rw [hMeq]
    exact hchar.2
  · rw [hout]
  · rw [hout]
  · intro db2 hnone
    have : scheduleCatchUp nextAfter db2 name mu now =
        { stderrLine := none, execRuns := 0 } := by
      rw [scheduleCatchUp, hnone]
      cases mu <;> simp [missedRunCount, makeUpRunCount]
    rw [this]
    exact ⟨rfl, rfl⟩

/-- C1 witness: a job last run at time 0 under a schedule firing every 10
time units, checked at `now = 35` with a catch-up limit of 2: three runs were
missed, two are made up, and the logged line says so. -/
theorem scheduleCatchUp_missed_runs_witness :
    (scheduleCatchUp (fun s => s + 10) [RunStatusEntry.mk "id1" "tick" 0 (some 0)]
        "tick" (MakeUpMissedRuns.upTo 2) 35).execRuns = 2 ∧
    (scheduleCatchUp (fun s => s + 10) [RunStatusEntry.mk "id1" "tick" 0 (some 0)]
        "tick" (MakeUpMissedRuns.upTo 2) 35).stderrLine =
      some "Making up 2 of 3 missed runs for tick\n" ∧
    35 < occ (fun s => s + 10) 0 (3 + 1) := by
  have h := scheduleCatchUp_missed_runs (fun s => s + 10)
    [RunStatusEntry.mk "id1" "tick" 0 (some 0)] "tick" (MakeUpMissedRuns.upTo 2)
    35 0 3 2 (fun s => by show s < s + 10; omega) (by decide) (by decide) (by decide)
  exact ⟨h.2.2.1, h.2.2.2.1.trans (by decide), h.2.1⟩

/-- C3 counterexample: an invocation passes the entry abort check and is then
suspended at a pre-spawn `await`; `reset()` runs to completion; the
invocation resumes and still reaches the spawn step.  The resulting event
trace is `[resetDone, spawnChild]` — a child process is produced under the
old generation after `reset()` completed, and (the abort listener being
registered only after the spawn, on an already-tripped token) it is never
SIGTERMed. -/
theorem reset_spawn_race_counterexample :
    (runActs [SupAct.step, SupAct.step, SupAct.reset, SupAct.step, SupAct.step,
        SupAct.step, SupAct.step, SupAct.step] initMachine).events =
      [SupEv.resetDone, SupEv.spawnChild] := by decide

/-- Running an interleaving splits at list append. -/
theorem runActs_append (l1 l2 : List SupAct) (s : MachineState) :
    runActs (l1 ++ l2) s = runActs l2 (runActs l1 s) := by
  induction l1 generalizing s with
  | nil => rfl
  | cons a rest ih => cases a <;> simp [runActs, ih]

/-- An invocation step never discards recorded events. -/
theorem stepInv_events_extend (s : MachineState) (e : SupEv) (h : e ∈ s.events) :
    e ∈ (stepInv s).events := by
  unfold stepInv
  repeat' split
  all_goals simp_all

/-- A reset never discards recorded events. -/
theorem doReset_events_extend (s : MachineState) (e : SupEv) (h : e ∈ s.events) :
    e ∈ (doReset s).events := by
  unfold doReset
  split <;> simp [h]

/-- Events recorded once remain in every later state. -/
theorem runActs_events_mono (acts : List SupAct) (s : MachineState) (e : SupEv)
    (h : e ∈ s.events) : e ∈ (runActs acts s).events := by
  induction acts generalizing s with
  | nil => exact h
  | cons a rest ih =>
    cases a
    · exact ih _ (stepInv_events_extend s e h)
    · exact ih _ (doReset_events_extend s e h)

/-- From a state whose token is tripped and whose invocation has not yet
passed the entry check (or is already done), no interleaving ever spawns. -/
theorem runActs_no_spawn_of_aborted (acts : List SupAct) (s : MachineState)
    (hab : s.aborted = true) (hpc : s.pc = 0 ∨ s.pc = 10)
    (hev : SupEv.spawnChild ∉ s.events) :
    SupEv.spawnChild ∉ (runActs acts s).events := by
  induction acts generalizing s with
  | nil => exact hev
  | cons a rest ih =>
    cases a
    · apply ih
      · unfold stepInv
        rcases hpc with h | h <;> simp [h, hab]
      · unfold stepInv
        rcases hpc with h | h <;> simp [h, hab]
      · unfold stepInv
        rcases hpc with h | h <;> simp [h, hab, hev]
    · apply ih
      · simp [doReset, hab]
      · simpa [doReset, hab] using hpc
      · simp [doReset, hab]
        simp_all

/-- Once the invocation's generation token is tripped, no later interleaving
ever emits a SIGTERM for this job: the token fires its listeners only at the
trip itself, and later resets abort newer generations' controllers. -/
theorem runActs_no_sigterm_of_aborted (acts : List SupAct) (s : MachineState)
    (hab : s.aborted = true) (hev : SupEv.sigtermChild ∉ s.events) :
    SupEv.sigtermChild ∉ (runActs acts s).events := by
  induction acts generalizing s with
  | nil => exact hev
  | cons a rest ih =>
    cases a
    · apply ih
      · unfold stepInv
        repeat' split
        all_goals simp_all
      · unfold stepInv
        repeat' split
        all_goals simp_all
    · apply ih
      · simp [doReset, hab]
      · simp [doReset, hab]
        simp_all

/-- C3 amended: an invocation whose entry check runs after `reset()` has
completed never reaches the spawn step; a child whose abort listener is
registered (alive and being awaited) when its generation's token trips —
i.e. at the first `reset()` after its registration — is signaled SIGTERM;
and an invocation already past the entry check when that `reset()` runs may
still spawn (see the counterexample), and such a child is never signaled, by
that or any later `reset()`. -/
theorem reset_cancellation_amended :
    (∀ post : List SupAct,
      SupEv.spawnChild ∉ (runActs (SupAct.reset :: post) initMachine).events) ∧
    (∀ pre post : List SupAct,
      (runActs pre initMachine).aborted = false →
      (runActs pre initMachine).listenerActive = true →
      SupEv.sigtermChild ∈
        (runActs (pre ++ SupAct.reset :: post) initMachine).events) ∧
    (∀ pre post : List SupAct,
      (runActs pre initMachine).aborted = true →
      SupEv.sigtermChild ∉ (runActs pre initMachine).events →
      SupEv.sigtermChild ∉ (runActs (pre ++ post) initMachine).events) := by
  refine ⟨?_, ?_, ?_⟩
  · intro post
    show SupEv.spawnChild ∉ (runActs post (doReset initMachine)).events
    apply runActs_no_spawn_of_aborted
    · rfl
    · left; rfl
    · decide
  · intro pre post hab hlis
    rw [runActs_append]
    show SupEv.sigtermChild ∈ (runActs post (doReset (runActs pre initMachine))).events
    apply runActs_events_mono
    simp [doReset, hab, hlis]
  · intro pre post hab hev
    rw [runActs_append]
    exact runActs_no_sigterm_of_aborted post _ hab hev

/-- C3 amended witness: a reset before the entry check suppresses the spawn;
a first reset arriving while the child is awaited delivers SIGTERM; and after
the counterexample's post-reset spawn, no further interleaving (even with a
second reset while that child is awaited) ever delivers SIGTERM to it. -/
theorem reset_cancellation_amended_witness :
    SupEv.spawnChild ∉
      (runActs [SupAct.reset, SupAct.step, SupAct.step, SupAct.step]
        initMachine).events ∧
    SupEv.sigtermChild ∈
      (runActs (List.replicate 7 SupAct.step ++ [SupAct.reset]) initMachine).events ∧
    SupEv.sigtermChild ∉
      (runActs ([SupAct.step, SupAct.step, SupAct.reset, SupAct.step, SupAct.step,
          SupAct.step, SupAct.step, SupAct.step] ++
        [SupAct.reset, SupAct.step, SupAct.step]) initMachine).events :=
  ⟨reset_cancellation_amended.1 [SupAct.step, SupAct.step, SupAct.step],
   reset_cancellation_amended.2.1 (List.replicate 7 SupAct.step) [] (by decide)
     (by decide),
   reset_cancellation_amended.2.2 [SupAct.step, SupAct.step, SupAct.reset,
       SupAct.step, SupAct.step, SupAct.step, SupAct.step, SupAct.step]
     [SupAct.reset, SupAct.step, SupAct.step] (by decide) (by decide)⟩

/-- C7 counterexample: `POST /mailbox/count` is a matched route with a method
the route (per the specification table, `GET /mailbox/count`) does not
support, yet the handler answers 200 with the count rather than 405; likewise
a non-GET request to the root path `/` answers 400, not 405. -/
theorem httpStatus_count_counterexample :
    httpStatus ["job-1"] FsOutcome.ok Method.post ["mailbox", "count"] = 200 ∧
    (200 : Nat) ≠ 405 ∧
    httpStatus ["job-1"] FsOutcome.ok Method.post [] = 400 ∧
    (400 : Nat) ≠ 405 := by decide

/-- C7 amended: a request whose path matches no route pattern receives 400; a
request to a matched `/job/:name/:command` or `/mailbox/messages` route with
an unsupported method receives 405, except that `/mailbox/count` answers 200
to every method and a non-GET request to `/` falls through to 400; a request
naming an unknown job receives 404; and on the log-file routes a filesystem
not-found error yields 404 while any other filesystem error yields 500. -/
theorem httpStatus_error_mapping_amended :
    (∀ (jobs : List String) (fs : FsOutcome) (m : Method) (path : List String),
      path ≠ [] → (∀ j c, path ≠ ["job", j, c]) → (∀ c, path ≠ ["mailbox", c]) →
      httpStatus jobs fs m path = 400) ∧
    (∀ (jobs : List String) (fs : FsOutcome) (m : Method), m ≠ Method.get →
      httpStatus jobs fs m [] = 400) ∧
    (∀ (jobs : List String) (fs : FsOutcome) (m : Method) (j c : String),
      jobs.contains j = false → httpStatus jobs fs m ["job", j, c] = 404) ∧
    (∀ (jobs : List String) (fs : FsOutcome) (m : Method) (j : String),
      jobs.contains j = true →
      (m ≠ Method.get → httpStatus jobs fs m ["job", j, "status"] = 405) ∧
      (m ≠ Method.get → m ≠ Method.delete →
        httpStatus jobs fs m ["job", j, "logs"] = 405) ∧
      (m = Method.put → httpStatus jobs fs m ["job", j, "mailbox"] = 405) ∧
      (m ≠ Method.post → httpStatus jobs fs m ["job", j, "terminate"] = 405)) ∧
    (∀ (jobs : List String) (fs : FsOutcome) (m : Method),
      m ≠ Method.get → m ≠ Method.delete →
      httpStatus jobs fs m ["mailbox", "messages"] = 405) ∧
    (∀ (jobs : List String) (fs : FsOutcome) (m : Method),
      httpStatus jobs fs m ["mailbox", "count"] = 200) ∧
    (∀ (jobs : List String) (m : Method) (j : String),
      jobs.contains j = true → (m = Method.get ∨ m = Method.delete) →
      httpStatus jobs FsOutcome.notFound m ["job", j, "logs"] = 404 ∧
      (∀ emsg,
        httpStatus jobs (FsOutcome.otherError emsg) m ["job", j, "logs"] = 500)) := by
  refine ⟨?_, ?_, ?_, ?_, ?_, ?_, ?_⟩
  · intro jobs fs m path hne hjob hmail
    unfold httpStatus
    rw [if_neg (by rintro ⟨-, h⟩; exact hne h)]
    rcases path with - | ⟨a, - | ⟨b, - | ⟨c, - | ⟨d, rest⟩⟩⟩⟩
    · exact absurd rfl hne
    · rfl
    · show (if a = "mailbox" then mailboxHandler m b else 400) = 400
      rw [if_neg]
      intro ha
      exact hmail b (by rw [ha])
    · show (if a = "job" then jobHandler jobs m b c fs else 400) = 400
      rw [if_neg]
      intro ha
      exact hjob b c (by rw [ha])
    · rfl
  · intro jobs fs m hm
    cases m <;> simp_all [httpStatus]
  · intro jobs fs m j c hc
    have hmem : j ∉ jobs := by simpa using hc
    cases m <;> simp [httpStatus, jobHandler, hmem]
  · intro jobs fs m j hc
    have hmem : j ∈ jobs := by simpa using hc
    refine ⟨?_, ?_, ?_, ?_⟩
    · intro hm; cases m <;> simp_all [httpStatus, jobHandler, hmem]
    · intro hm hm2; cases m <;> simp_all [httpStatus, jobHandler, hmem]
    · intro hm; subst hm; simp [httpStatus, jobHandler, hmem]
    · intro hm; cases m <;> simp_all [httpStatus, jobHandler, hmem]
  · intro jobs fs m h1 h2
    cases m <;> simp_all [httpStatus, mailboxHandler]
  · intro jobs fs m
    cases m <;> simp [httpStatus, mailboxHandler]
  · intro jobs m j hc hm
    have hmem : j ∈ jobs := by simpa using hc
    constructor
    · rcases hm with h | h <;> subst h <;> simp [httpStatus, jobHandler, hmem, fsStatus]
    · intro emsg
      rcases hm with h | h <;> subst h <;> simp [httpStatus, jobHandler, hmem, fsStatus]

/-- C7 amended witness: one concrete request per clause of the amended error
mapping. -/
theorem httpStatus_error_mapping_amended_witness :
    httpStatus ["job-1"] FsOutcome.ok Method.get ["a", "b", "c", "d"] = 400 ∧
    httpStatus ["job-1"] FsOutcome.ok Method.delete [] = 400 ∧
    httpStatus ["job-1"] FsOutcome.ok Method.get ["job", "nope", "status"] = 404 ∧
    httpStatus ["job-1"] FsOutcome.ok Method.put ["job", "job-1", "status"] = 405 ∧
    httpStatus ["job-1"] FsOutcome.ok Method.put ["mailbox", "messages"] = 405 ∧
    httpStatus ["job-1"] FsOutcome.ok Method.delete ["mailbox", "count"] = 200 ∧
    httpStatus ["job-1"] FsOutcome.notFound Method.get ["job", "job-1", "logs"] = 404 ∧
    httpStatus ["job-1"] (FsOutcome.otherError "EACCES") Method.get
      ["job", "job-1", "logs"] = 500 :=
  ⟨httpStatus_error_mapping_amended.1 ["job-1"] FsOutcome.ok Method.get
      ["a", "b", "c", "d"] (by decide)
      (by intro j c h; simp at h) (by intro c h; simp at h),
   httpStatus_error_mapping_amended.2.1 ["job-1"] FsOutcome.ok Method.delete (by decide),
   httpStatus_error_mapping_amended.2.2.1 ["job-1"] FsOutcome.ok Method.get
     "nope" "status" (by decide),
   (httpStatus_error_mapping_amended.2.2.2.1 ["job-1"] FsOutcome.ok Method.put
     "job-1" (by decide)).1 (by decide),
   httpStatus_error_mapping_amended.2.2.2.2.1 ["job-1"] FsOutcome.ok Method.put
     (by decide) (by decide),
   httpStatus_error_mapping_amended.2.2.2.2.2.1 ["job-1"] FsOutcome.ok Method.delete,
   (httpStatus_error_mapping_amended.2.2.2.2.2.2 ["job-1"] Method.get "job-1"
     (by decide) (Or.inl rfl)).1,
   (httpStatus_error_mapping_amended.2.2.2.2.2.2 ["job-1"] Method.get "job-1"
     (by decide) (Or.inl rfl)).2 "EACCES"⟩

/-- C8 counterexample: `load` calls `reset()` before reading and parsing
(trace starts `resetCall, readParse` rather than parse-then-reset), and a
name-validation failure inside the un-awaited `startup` call (the invalid
name `bad_name`) does not propagate: `load` still returns success. -/
theorem load_counterexample :
    (load (Except.ok
        (RawDoc.mk [("bad_name", [("command", TomlVal.str "true")])] []))).2 =
      [LoadEv.resetCall, LoadEv.readParse true,
       LoadEv.startupCall "bad_name" "true" true (some NameError.invalidName)] ∧
    (load (Except.ok
        (RawDoc.mk [("bad_name", [("command", TomlVal.str "true")])] []))).1 =
      Except.ok () :=
  ⟨by decide, by rfl⟩

/-- `startupCalls` distributes over append. -/
theorem startupCalls_append (l1 l2 : List LoadEv) :
    startupCalls (l1 ++ l2) = startupCalls l1 ++ startupCalls l2 := by
  simp [startupCalls]

/-- `scheduleCalls` distributes over append. -/
theorem scheduleCalls_append (l1 l2 : List LoadEv) :
    scheduleCalls (l1 ++ l2) = scheduleCalls l1 ++ scheduleCalls l2 := by
  simp [scheduleCalls]

/-- The `startup` calls issued by `applyStartups` are the configured entries,
in document order, with their options. -/
theorem applyStartups_calls (l : List (String × StartupJobCfg)) :
    ∀ reg, startupCalls (applyStartups reg l).2 =
      l.map (fun nc => (nc.1, nc.2.command, nc.2.keepAlive)) := by
  induction l with
  | nil => intro reg; rfl
  | cons x rest ih =>
    intro reg
    simp [applyStartups, startupCalls] at ih ⊢
    exact ih _

/-- `applyStartups` issues no `schedule` call. -/
theorem applyStartups_no_schedule (l : List (String × StartupJobCfg)) :
    ∀ reg, scheduleCalls (applyStartups reg l).2 = [] := by
  induction l with
  | nil => intro reg; rfl
  | cons x rest ih =>
    intro reg
    simp [applyStartups, scheduleCalls] at ih ⊢
    exact ih _

/-- The `schedule` calls issued by `applySchedules` are the configured
entries, in document order, with their options. -/
theorem applySchedules_calls (l : List (String × ScheduleJobCfg)) :
    ∀ reg, scheduleCalls (applySchedules reg l).2 =
      l.map (fun nc =>
        (nc.1, nc.2.schedule, nc.2.command, nc.2.allowConcurrentRuns,
         nc.2.makeUpMissedRuns)) := by
  induction l with
  | nil => intro reg; rfl
  | cons x rest ih =>
    intro reg
    simp [applySchedules, scheduleCalls] at ih ⊢
    exact ih _

/-- `applySchedules` issues no `startup` call. -/
theorem applySchedules_no_startup (l : List (String × ScheduleJobCfg)) :
    ∀ reg, startupCalls (applySchedules reg l).2 = [] := by
  induction l with
  | nil => intro reg; rfl
  | cons x rest ih =>
    intro reg
    simp [applySchedules, startupCalls] at ih ⊢
    exact ih _

/-- C8 amended: `load` calls `supervisor.reset()` first, then reads and
parses the file; parse failures and unknown-field rejections (the schema is
strict) propagate to the caller, with no job registered; on a successful
parse `load` issues the `startup` calls and then the `schedule` calls, each
in document order with the configured options, and returns success even when
a name-validation failure occurs inside one of the un-awaited calls. -/
theorem load_behavior_amended :
    (∀ doc : Except String RawDoc, ((load doc).2).head? = some LoadEv.resetCall) ∧
    (∀ e : String, load (Except.error e) =
      (Except.error e, [LoadEv.resetCall, LoadEv.readParse false])) ∧
    (∀ (raw : RawDoc) (e : String), parseChronfile raw = Except.error e →
      load (Except.ok raw) =
        (Except.error e, [LoadEv.resetCall, LoadEv.readParse false])) ∧
    (∀ (entry : RawEntry) (kv : String × TomlVal), kv ∈ entry →
      kv.1 ≠ "command" → kv.1 ≠ "keepAlive" →
      parseStartupEntry entry = Except.error "unrecognized keys") ∧
    (∀ (raw : RawDoc) (cfg : Chronfile), parseChronfile raw = Except.ok cfg →
      (load (Except.ok raw)).1 = Except.ok () ∧
      startupCalls (load (Except.ok raw)).2 =
        cfg.startup.map (fun nc => (nc.1, nc.2.command, nc.2.keepAlive)) ∧
      scheduleCalls (load (Except.ok raw)).2 =
        cfg.schedule.map (fun nc =>
          (nc.1, nc.2.schedule, nc.2.command, nc.2.allowConcurrentRuns,
           nc.2.makeUpMissedRuns)) ∧
      (load (Except.ok raw)).2 =
        [LoadEv.resetCall, LoadEv.readParse true] ++
          (applyStartups [] cfg.startup).2 ++
          (applySchedules (applyStartups [] cfg.startup).1 cfg.schedule).2) := by
  refine ⟨?_, ?_, ?_, ?_, ?_⟩
  · intro doc
    rcases doc with e | raw
    · rfl
    · rcases h : parseChronfile raw with e | cfg <;> simp [load, h]
  · intro e; rfl
  · intro raw e h
    simp [load, h]
  · intro entry kv hmem h1 h2
    unfold parseStartupEntry
    rw [if_pos]
    have : ¬ (entry.all (fun kv => kv.1 == "command" || kv.1 == "keepAlive") = true) := by
      intro hall
      rw [List.all_eq_true] at hall
      have := hall kv hmem
      simp [h1, h2] at this
    simp [this]
  · intro raw cfg h
    have hload : load (Except.ok raw) =
        (Except.ok (), [LoadEv.resetCall, LoadEv.readParse true] ++
          (applyStartups [] cfg.startup).2 ++
          (applySchedules (applyStartups [] cfg.startup).1 cfg.schedule).2) := by
      simp [load, h]
    refine ⟨by rw [hload], ?_, ?_, by rw [hload]⟩
    · rw [hload]
      show startupCalls ([LoadEv.resetCall, LoadEv.readParse true] ++ _ ++ _) = _
      rw [startupCalls_append, startupCalls_append, applyStartups_calls,
        applySchedules_no_startup]
      simp [startupCalls]
    · rw [hload]
      show scheduleCalls ([LoadEv.resetCall, LoadEv.readParse true] ++ _ ++ _) = _
      rw [scheduleCalls_append, scheduleCalls_append, applySchedules_calls,
        applyStartups_no_schedule]
      simp [scheduleCalls]

/-- C8 amended witness: concrete documents exercising every clause — a read
failure, a strict-schema rejection of an unknown field, and a successful load
with one startup and one scheduled entry. -/
theorem load_behavior_amended_witness :
    load (Except.error "nope") =
      (Except.error "nope", [LoadEv.resetCall, LoadEv.readParse false]) ∧
    load (Except.ok (RawDoc.mk [("a", [("commnd", TomlVal.str "x")])] [])) =
      (Except.error "unrecognized keys",
       [LoadEv.resetCall, LoadEv.readParse false]) ∧
    parseStartupEntry [("commnd", TomlVal.str "x")] =
      Except.error "unrecognized keys" ∧
    (load (Except.ok (RawDoc.mk [("up", [("command", TomlVal.str "c1")])]
        [("tick", [("schedule", TomlVal.str "* * * * *"),
                   ("command", TomlVal.str "c2")])]))).1 = Except.ok () ∧
    startupCalls (load (Except.ok (RawDoc.mk [("up", [("command", TomlVal.str "c1")])]
        [("tick", [("schedule", TomlVal.str "* * * * *"),
                   ("command", TomlVal.str "c2")])]))).2 = [("up", "c1", true)] ∧
    scheduleCalls (load (Except.ok (RawDoc.mk [("up", [("command", TomlVal.str "c1")])]
        [("tick", [("schedule", TomlVal.str "* * * * *"),
                   ("command", TomlVal.str "c2")])]))).2 =
      [("tick", "* * * * *", "c2", false, MakeUpMissedRuns.upTo 0)] :=
  ⟨load_behavior_amended.2.1 "nope",
   load_behavior_amended.2.2.1 (RawDoc.mk [("a", [("commnd", TomlVal.str "x")])] [])
     "unrecognized keys" (by rfl),
   load_behavior_amended.2.2.2.1 [("commnd", TomlVal.str "x")]
     ("commnd", TomlVal.str "x") (by decide) (by decide) (by decide),
   (load_behavior_amended.2.2.2.2
     (RawDoc.mk [("up", [("command", TomlVal.str "c1")])]
        [("tick", [("schedule", TomlVal.str "* * * * *"),
                   ("command", TomlVal.str "c2")])])
     (Chronfile.mk [("up", StartupJobCfg.mk "c1" true)]
        [("tick", ScheduleJobCfg.mk "* * * * *" "c2" false (MakeUpMissedRuns.upTo 0))])
     (by rfl)).1,
   ((load_behavior_amended.2.2.2.2
     (RawDoc.mk [("up", [("command", TomlVal.str "c1")])]
        [("tick", [("schedule", TomlVal.str "* * * * *"),
                   ("command", TomlVal.str "c2")])])
     (Chronfile.mk [("up", StartupJobCfg.mk "c1" true)]
        [("tick", ScheduleJobCfg.mk "* * * * *" "c2" false (MakeUpMissedRuns.upTo 0))])
     (by rfl)).2.1).trans (by decide),
   ((load_behavior_amended.2.2.2.2
     (RawDoc.mk [("up", [("command", TomlVal.str "c1")])]
        [("tick", [("schedule", TomlVal.str "* * * * *"),
                   ("command", TomlVal.str "c2")])])
     (Chronfile.mk [("up", StartupJobCfg.mk "c1" true)]
        [("tick", ScheduleJobCfg.mk "* * * * *" "c2" false (MakeUpMissedRuns.upTo 0))])
     (by rfl)).2.2.1).trans (by decide)⟩
